import Mathlib

/-!
Verification of the thread-identity mapping subsystem of the
ai-foundry-agent-mcp server.

The development shallowly embeds the Python sources:

* `src/src/azure_agent.py` — `AzureAgentManager`: the user→thread mapping
  table (a Python dict), its JSON persistence, `_ensure_user_thread`,
  `clear_conversation`, `send_message`, `list_messages`;
* `src/src/main.py` — `get_user_id_from_token` (SHA-256 based identity
  derivation) and the HTTP request plumbing around the `_current_token`
  process-wide slot.

Python dicts keyed by strings are embedded as association lists with
unique keys; Python exceptions as `Except String`; the remote Azure
service and the file system as explicit oracle parameters.
-/

namespace AgentMCP

/-! ## The user→thread mapping table

`AzureAgentManager.user_threads` is a Python `Dict[str, str]`.  We embed
it as an association list whose keys are unique (an invariant of Python
dicts).  `lookup`, `insertKey`, `eraseKey` mirror `d[k]`, `d[k] = v`,
`del d[k]`. -/

abbrev Table := List (String × String)

namespace Table

/-- `k in d` / `d.get(k)` on a Python dict: the value stored under `k`. -/
def lookup (t : Table) (k : String) : Option String :=
  match t with
  | [] => none
  | (k₁, v₁) :: rest => if k₁ = k then some v₁ else lookup rest k

/-- `d[k] = v` on a Python dict: replace in place if the key exists,
append otherwise. -/
def insertKey (t : Table) (k : String) (v : String) : Table :=
  match t with
  | [] => [(k, v)]
  | (k₁, v₁) :: rest =>
      if k₁ = k then (k₁, v) :: rest else (k₁, v₁) :: insertKey rest k v

/-- `del d[k]` on a Python dict (no effect if the key is absent, the
callers only erase present keys). -/
def eraseKey (t : Table) (k : String) : Table :=
  match t with
  | [] => []
  | (k₁, v₁) :: rest =>
      if k₁ = k then rest else (k₁, v₁) :: eraseKey rest k

/-- Number of entries filed under key `k`; Python dicts always have zero
or one. -/
def countKey (t : Table) (k : String) : Nat :=
  (t.filter (fun e => e.1 = k)).length

/-- Keys are pairwise distinct, the standing invariant of a Python dict. -/
def nodupKeys (t : Table) : Prop :=
  (t.map Prod.fst).Nodup

instance : DecidablePred nodupKeys := fun t =>
  inferInstanceAs (Decidable (t.map Prod.fst).Nodup)

end Table

/-! ## SHA-256

`get_user_id_from_token` in `src/src/main.py` (and its copy in
`src/start_server.py`) computes `hashlib.sha256(token.encode()).hexdigest()[:16]`.
We embed SHA-256 (FIPS 180-4) over byte lists, with 32-bit words as `Nat`
reduced mod `2 ^ 32`. -/

/-- One lowercase hexadecimal digit, as both `hexdigest` and the JSON
`\uXXXX` escapes print them. -/
def hexDigitChar (n : Nat) : Char :=
  if n < 10 then Char.ofNat (48 + n) else Char.ofNat (87 + n)

namespace Sha256

def w32 (n : Nat) : Nat := n % 4294967296

def rotr (n x : Nat) : Nat := w32 ((x >>> n) ||| (x <<< (32 - n)))

def bnot32 (x : Nat) : Nat := x ^^^ 4294967295

def ch (x y z : Nat) : Nat := (x &&& y) ^^^ (bnot32 x &&& z)

def maj (x y z : Nat) : Nat := (x &&& y) ^^^ (x &&& z) ^^^ (y &&& z)

def bigSigma0 (x : Nat) : Nat := rotr 2 x ^^^ rotr 13 x ^^^ rotr 22 x

def bigSigma1 (x : Nat) : Nat := rotr 6 x ^^^ rotr 11 x ^^^ rotr 25 x

def smallSigma0 (x : Nat) : Nat := rotr 7 x ^^^ rotr 18 x ^^^ (x >>> 3)

def smallSigma1 (x : Nat) : Nat := rotr 17 x ^^^ rotr 19 x ^^^ (x >>> 10)

/-- The 64 round constants of FIPS 180-4 section 4.2.2, in decimal. -/
def K : List Nat :=
  [1116352408, 1899447441, 3049323471, 3921009573, 961987163,
   1508970993, 2453635748, 2870763221, 3624381080, 310598401,
   607225278, 1426881987, 1925078388, 2162078206, 2614888103,
   3248222580, 3835390401, 4022224774, 264347078, 604807628,
   770255983, 1249150122, 1555081692, 1996064986, 2554220882,
   2821834349, 2952996808, 3210313671, 3336571891, 3584528711,
   113926993, 338241895, 666307205, 773529912, 1294757372,
   1396182291, 1695183700, 1986661051, 2177026350, 2456956037,
   2730485921, 2820302411, 3259730800, 3345764771, 3516065817,
   3600352804, 4094571909, 275423344, 430227734, 506948616,
   659060556, 883997877, 958139571, 1322822218, 1537002063,
   1747873779, 1955562222, 2024104815, 2227730452, 2361852424,
   2428436474, 2756734187, 3204031479, 3329325298]

/-- Working state / hash value: eight 32-bit words. -/
structure Hash8 where
  a : Nat
  b : Nat
  c : Nat
  d : Nat
  e : Nat
  f : Nat
  g : Nat
  h : Nat

/-- The initial hash value of FIPS 180-4 section 5.3.3, in decimal. -/
def initH : Hash8 :=
  ⟨1779033703, 3144134277, 1013904242, 2773480762,
   1359893119, 2600822924, 528734635, 1541459225⟩

/-- Extend 16 message-schedule words to 64. -/
def schedule (ws : List Nat) : List Nat :=
  (List.range 48).foldl
    (fun acc i =>
      let wm2 := acc.getD (i + 14) 0
      let wm7 := acc.getD (i + 9) 0
      let wm15 := acc.getD (i + 1) 0
      let wm16 := acc.getD i 0
      acc ++ [w32 (smallSigma1 wm2 + wm7 + smallSigma0 wm15 + wm16)])
    ws

/-- One compression round. -/
def round (s : Hash8) (kw : Nat × Nat) : Hash8 :=
  let t1 := w32 (s.h + bigSigma1 s.e + ch s.e s.f s.g + kw.1 + kw.2)
  let t2 := w32 (bigSigma0 s.a + maj s.a s.b s.c)
  ⟨w32 (t1 + t2), s.a, s.b, s.c, w32 (s.d + t1), s.e, s.f, s.g⟩

/-- Compress one 512-bit block (given as 16 words) into the hash state. -/
def compress (h : Hash8) (block : List Nat) : Hash8 :=
  let s := (K.zip (schedule block)).foldl round h
  ⟨w32 (h.a + s.a), w32 (h.b + s.b), w32 (h.c + s.c), w32 (h.d + s.d),
   w32 (h.e + s.e), w32 (h.f + s.f), w32 (h.g + s.g), w32 (h.h + s.h)⟩

/-- Big-endian grouping of bytes into 32-bit words. -/
def bytesToWords : List Nat → List Nat
  | b0 :: b1 :: b2 :: b3 :: rest =>
      (b0 * 16777216 + b1 * 65536 + b2 * 256 + b3) :: bytesToWords rest
  | _ => []

/-- Split a word list into 512-bit blocks of 16 words each. -/
def wordsToBlocks : List Nat → List (List Nat)
  | w0 :: w1 :: w2 :: w3 :: w4 :: w5 :: w6 :: w7 ::
    w8 :: w9 :: w10 :: w11 :: w12 :: w13 :: w14 :: w15 :: rest =>
      [w0, w1, w2, w3, w4, w5, w6, w7,
       w8, w9, w10, w11, w12, w13, w14, w15] :: wordsToBlocks rest
  | _ => []

/-- SHA-256 padding: append `0x80`, zeros, and the 64-bit big-endian bit
length, to a multiple of 64 bytes. -/
def pad (msg : List Nat) : List Nat :=
  let len := msg.length
  let zeros := (64 + 55 - len % 64) % 64
  let bitLen := len * 8
  msg ++ [0x80] ++ List.replicate zeros 0 ++
    (List.range 8).map (fun i => bitLen >>> (8 * (7 - i)) % 256)

/-- The SHA-256 digest of a byte list, as eight 32-bit words. -/
def digestWords (msg : List Nat) : Hash8 :=
  (wordsToBlocks (bytesToWords (pad msg))).foldl compress initH

/-- UTF-8 encoding of one character, as `str.encode()` produces. -/
def utf8Bytes (c : Char) : List Nat :=
  let n := c.toNat
  if n < 0x80 then [n]
  else if n < 0x800 then
    [0xC0 ||| (n >>> 6), 0x80 ||| (n &&& 0x3F)]
  else if n < 0x10000 then
    [0xE0 ||| (n >>> 12), 0x80 ||| ((n >>> 6) &&& 0x3F), 0x80 ||| (n &&& 0x3F)]
  else
    [0xF0 ||| (n >>> 18), 0x80 ||| ((n >>> 12) &&& 0x3F),
     0x80 ||| ((n >>> 6) &&& 0x3F), 0x80 ||| (n &&& 0x3F)]

/-- `s.encode()`: the UTF-8 bytes of a string. -/
def strBytes (s : String) : List Nat :=
  (s.data.map utf8Bytes).flatten

/-- Eight lowercase hex digits of a 32-bit word, most significant first. -/
def wordHexChars (w : Nat) : List Char :=
  (List.range 8).map (fun i => hexDigitChar (w >>> (4 * (7 - i)) % 16))

/-- The characters of `hashlib.sha256(s.encode()).hexdigest()`. -/
def hexdigestChars (s : String) : List Char :=
  let h := digestWords (strBytes s)
  ((([h.a, h.b, h.c, h.d, h.e, h.f, h.g, h.h]).map wordHexChars)).flatten

/-- `hashlib.sha256(s.encode()).hexdigest()`. -/
def hexdigest (s : String) : String :=
  ⟨hexdigestChars s⟩

end Sha256

/-- `get_user_id_from_token` from `src/src/main.py` lines 81–93 (identical
copy in `src/start_server.py`): the first 16 characters of the SHA-256 hex
digest of the token. -/
def get_user_id_from_token (token : String) : String :=
  ⟨(Sha256.hexdigestChars token).take 16⟩

/-- The sixteen characters a lowercase hexadecimal string may use. -/
def lowercaseHexDigits : List Char :=
  "0123456789abcdef".data

/-! ## JSON persistence

`_save_user_thread_mapping_locked` serializes the dict with
`json.dump(self.user_threads, f, indent=2)`; `_load_user_thread_mapping`
reads it back with `json.load`.  We embed the Python `json` library at
the shape actually stored — an object mapping strings to strings — with
the default `ensure_ascii=True` escaping.  `parse*` accepts JSON
whitespace freely; it rejects content that is not such an object (for
the loader that rejection lands in the catch-all and yields the empty
table, matching `json.load` raising on malformed input). -/

namespace Json

/-- Four lowercase hex digits, big-endian, as a `\uXXXX` escape prints
them. -/
def hex4 (n : Nat) : List Char :=
  [hexDigitChar (n / 4096 % 16), hexDigitChar (n / 256 % 16),
   hexDigitChar (n / 16 % 16), hexDigitChar (n % 16)]

/-- The escape of one character inside a JSON string literal, following
the `ensure_ascii=True` encoder: two-character short escapes, printable
ASCII verbatim, everything else as `\uXXXX` (with surrogate pairs above
the BMP). -/
def escapeChar (c : Char) : List Char :=
  if c = '"' then ['\\', '"']
  else if c = '\\' then ['\\', '\\']
  else if c.toNat = 8 then ['\\', 'b']
  else if c.toNat = 9 then ['\\', 't']
  else if c.toNat = 10 then ['\\', 'n']
  else if c.toNat = 12 then ['\\', 'f']
  else if c.toNat = 13 then ['\\', 'r']
  else if 0x20 ≤ c.toNat ∧ c.toNat ≤ 0x7E then [c]
  else if c.toNat < 0x10000 then
    '\\' :: 'u' :: hex4 c.toNat
  else
    let m := c.toNat - 0x10000
    '\\' :: 'u' :: hex4 (0xD800 + m / 0x400) ++
      '\\' :: 'u' :: hex4 (0xDC00 + m % 0x400)

/-- The escaped characters of a whole string body. -/
def escapeChars (l : List Char) : List Char :=
  (l.map escapeChar).flatten

/-- A JSON string literal, quotes included. -/
def escapeString (s : String) : List Char :=
  '"' :: escapeChars s.data ++ ['"']

/-- One `"key": "value"` line as `json.dump(…, indent=2)` prints it. -/
def encodeEntry (e : String × String) : List Char :=
  ' ' :: ' ' :: escapeString e.1 ++ ':' :: ' ' :: escapeString e.2

/-- The `,\n`-separated entry lines. -/
def encodeEntries : Table → List Char
  | [] => []
  | [e] => encodeEntry e
  | e :: rest => encodeEntry e ++ ',' :: '\n' :: encodeEntries rest

/-- `json.dumps(d, indent=2)` for a string-to-string dict: `{}` when
empty, otherwise one indented line per entry. -/
def encodeTable (t : Table) : String :=
  match t with
  | [] => "{}"
  | _ => ⟨'{' :: '\n' :: encodeEntries t ++ ['\n', '}']⟩

/-- The numeric value of one hex digit (`json.load` accepts either
case). -/
def hexVal (c : Char) : Option Nat :=
  if '0' ≤ c ∧ c ≤ '9' then some (c.toNat - 48)
  else if 'a' ≤ c ∧ c ≤ 'f' then some (c.toNat - 87)
  else if 'A' ≤ c ∧ c ≤ 'F' then some (c.toNat - 55)
  else none

/-- Four hex digits, big-endian. -/
def hex4Val (a b c d : Char) : Option Nat :=
  match hexVal a, hexVal b, hexVal c, hexVal d with
  | some x, some y, some z, some w => some (4096 * x + 256 * y + 16 * z + w)
  | _, _, _, _ => none

/-- The character denoted by a one-letter escape. -/
def escVal (c : Char) : Option Char :=
  if c = '"' then some '"'
  else if c = '\\' then some '\\'
  else if c = '/' then some '/'
  else if c = 'b' then some (Char.ofNat 8)
  else if c = 't' then some (Char.ofNat 9)
  else if c = 'n' then some (Char.ofNat 10)
  else if c = 'f' then some (Char.ofNat 12)
  else if c = 'r' then some (Char.ofNat 13)
  else none

/-- Decode one escape sequence (the part after the backslash): a
one-letter escape or `\uXXXX`, where a high surrogate must be followed
by a low surrogate (a lone surrogate cannot be represented in a Lean
`Char`; the encoder never produces one).  Returns the decoded character
and the unconsumed input. -/
def parseEsc : List Char → Option (Char × List Char)
  | [] => none
  | e :: rest2 =>
    if e = 'u' then
      match rest2 with
      | a :: b :: c2 :: d :: rest3 =>
        match hex4Val a b c2 d with
        | none => none
        | some n =>
          if 0xD800 ≤ n ∧ n < 0xDC00 then
            match rest3 with
            | s1 :: s2 :: a2 :: b2 :: c3 :: d2 :: rest4 =>
              if s1 = '\\' ∧ s2 = 'u' then
                match hex4Val a2 b2 c3 d2 with
                | none => none
                | some m =>
                  if 0xDC00 ≤ m ∧ m < 0xE000 then
                    some (Char.ofNat (0x10000 + (n - 0xD800) * 0x400 + (m - 0xDC00)), rest4)
                  else none
              else none
            | _ => none
          else if 0xDC00 ≤ n ∧ n < 0xE000 then none
          else some (Char.ofNat n, rest3)
      | _ => none
    else (escVal e).map (fun c => (c, rest2))

/-- Parse the body of a JSON string literal up to and including its
closing quote; return the decoded characters and the unconsumed input.
The fuel decreases once per decoded character while the input shrinks
at least as fast, so any fuel beyond the input length is enough. -/
def parseStrBody : Nat → List Char → Option (List Char × List Char)
  | 0, _ => none
  | fuel + 1, l =>
    match l with
    | [] => none
    | c :: rest =>
      if c = '"' then some ([], rest)
      else if c = '\\' then
        match parseEsc rest with
        | none => none
        | some (c4, rest2) =>
          (parseStrBody fuel rest2).map (fun p => (c4 :: p.1, p.2))
      else if c.toNat < 0x20 then none
      else (parseStrBody fuel rest).map (fun p => (c :: p.1, p.2))

/-- Drop leading JSON whitespace. -/
def skipWs : List Char → List Char
  | [] => []
  | c :: rest =>
    if c = ' ' ∨ c = '\n' ∨ c = '\t' ∨ c = '\r' then skipWs rest else c :: rest

/-- Consume one expected character. -/
def expectChar (c : Char) (l : List Char) : Option (List Char) :=
  match l with
  | [] => none
  | x :: rest => if x = c then some rest else none

/-- A quoted JSON string, with string fuel `F`. -/
def parseJString (F : Nat) (l : List Char) : Option (String × List Char) :=
  match expectChar '"' l with
  | none => none
  | some rest => (parseStrBody F rest).map (fun p => (⟨p.1⟩, p.2))

/-- One `"key": "value"` pair, leading whitespace allowed. -/
def parseEntry (F : Nat) (l : List Char) : Option ((String × String) × List Char) :=
  match parseJString F (skipWs l) with
  | none => none
  | some (k, r1) =>
    match expectChar ':' (skipWs r1) with
    | none => none
    | some r2 =>
      match parseJString F (skipWs r2) with
      | none => none
      | some (v, r3) => some ((k, v), r3)

/-- The comma-separated members of a nonempty object, consuming the
closing brace.  The fuel only bounds the number of members; the
top-level entry point supplies more fuel than the input has
characters. -/
def parseEntriesAux (F : Nat) : Nat → List Char → Option (Table × List Char)
  | 0, _ => none
  | fuel + 1, l =>
    match parseEntry F l with
    | none => none
    | some (e, r) =>
      match skipWs r with
      | [] => none
      | c :: rest =>
        if c = ',' then
          match parseEntriesAux F fuel rest with
          | none => none
          | some (es, r2) => some (e :: es, r2)
        else if c = '}' then some ([e], rest)
        else none

/-- Parse a whole document: one object of string members and trailing
whitespace only, as `json.load` requires for the persisted table. -/
def parseTableChars (l : List Char) : Option Table :=
  match expectChar '{' (skipWs l) with
  | none => none
  | some r =>
    match skipWs r with
    | [] => none
    | c :: rest =>
      if c = '}' then if skipWs rest = [] then some [] else none
      else
        match parseEntriesAux (l.length + 1) (l.length + 1) (c :: rest) with
        | none => none
        | some (es, r2) => if skipWs r2 = [] then some es else none

/-- `json.load` on the persisted file content. -/
def parseTable (s : String) : Option Table :=
  parseTableChars s.data

end Json

/-! ## The manager state and its operations

`AzureAgentManager` holds the in-memory dict `self.user_threads` and
the backing file `user_thread_mapping.json`.  The file system is
explicit: `FileState.absent` is a missing file, `FileState.unreadable`
a file whose read raises, `FileState.stored s` a file with content `s`.
The remote Azure service and the success of file writes are an explicit
`Oracle`.  Operations that Python lets raise return `Except String`,
the payload being `str(e)`; operations are sequential here (the
interleaved run of `_ensure_user_thread` is the separate step machine
below). -/

inductive FileState where
  | absent
  | unreadable
  | stored (s : String)
  deriving DecidableEq

/-- One message as `send_message`/`list_messages` consume it: its role
and the values of its `text_messages`. -/
structure Msg where
  role : String
  texts : List String
  deriving DecidableEq

/-- The result object of `runs.create_and_process`. -/
structure RunInfo where
  status : String
  last_error : String
  deriving DecidableEq

/-- Behaviour of the remote Azure service and of file writes during one
operation: each field is the outcome the corresponding remote call
would have, `.error` meaning the call raises. -/
structure Oracle where
  createThread : Except String String
  getAgent : Except String Unit
  msgCreate : Except String Unit
  runResult : Except String RunInfo
  msgsDescending : Except String (List Msg)
  msgsAscending : Except String (List Msg)

/-- In-memory dict plus backing file. -/
structure SysState where
  user_threads : Table
  file : FileState

/-- `_load_user_thread_mapping` (azure_agent.py lines 121–129): return
the parsed file if it exists and parses, the empty dict otherwise; the
`except` swallows read and parse failures. -/
def load_user_thread_mapping (f : FileState) : Table :=
  match f with
  | .absent => []
  | .unreadable => []
  | .stored s =>
    match Json.parseTable s with
    | some t => t
    | none => []

/-- `_save_user_thread_mapping_locked` (azure_agent.py lines 131–137):
overwrite the file with the serialized dict; a write failure
(`saveOk = false`) is caught and logged, the dict itself is untouched
and nothing propagates. -/
def save_user_thread_mapping_locked (saveOk : Bool) (t : Table) (f : FileState) : FileState :=
  if saveOk then .stored (Json.encodeTable t) else f

/-- `_ensure_user_thread` (azure_agent.py lines 185–231), sequential
run: reject an empty user id; return the existing thread under the
lock; otherwise create a thread remotely outside the lock (here the
oracle outcome), then re-check under the lock before inserting and
saving.  A create failure is re-raised. -/
def ensure_user_thread (user_id : String) (o : Oracle) (saveOk : Bool)
    (st : SysState) : Except String String × SysState :=
  if user_id = "" then (.error "User ID is required.", st)
  else
    match st.user_threads.lookup user_id with
    | some thread_id => (.ok thread_id, st)
    | none =>
      match o.createThread with
      | .error e => (.error e, st)
      | .ok thread_id =>
        match st.user_threads.lookup user_id with
        | some existing => (.ok existing, st)
        | none =>
          let t2 := st.user_threads.insertKey user_id thread_id
          (.ok thread_id,
           SysState.mk t2 (save_user_thread_mapping_locked saveOk t2 st.file))

/-- `clear_conversation` (azure_agent.py lines 139–167): under the lock
read the old thread (`"None"` when absent), delete and save if present;
then `_ensure_user_thread` for a fresh thread.  The `except Exception`
turns any failure into a normally returned error string, so the result
is always `.ok`. -/
def clear_conversation (user_id : String) (o : Oracle) (saveOk : Bool)
    (st : SysState) : Except String String × SysState :=
  let old_thread_id := (st.user_threads.lookup user_id).getD "None"
  let st1 :=
    if (st.user_threads.lookup user_id).isSome then
      let t2 := st.user_threads.eraseKey user_id
      SysState.mk t2 (save_user_thread_mapping_locked saveOk t2 st.file)
    else st
  match ensure_user_thread user_id o saveOk st1 with
  | (.ok new_thread_id, st2) =>
    (.ok ("Conversation cleared successfully. Old thread: " ++ old_thread_id ++
          ", New thread: " ++ new_thread_id), st2)
  | (.error e, st2) =>
    (.ok ("Failed to clear conversation: " ++ e), st2)

/-- The newest assistant reply: first message with role `assistant` and
a nonempty `text_messages`, taking the last text (the `for msg in
messages` loop of `send_message`). -/
def findAssistantReply : List Msg → Option String
  | [] => none
  | m :: rest =>
    if m.role = "assistant" then
      match m.texts.getLast? with
      | some t => some t
      | none => findAssistantReply rest
    else findAssistantReply rest

/-- `send_message` (azure_agent.py lines 244–306), non-test mode:
resolve the thread, fetch the agent, create the user message, run, and
return the newest assistant reply; a failed run status or any raised
exception becomes a normally returned error string. -/
def send_message (message : String) (user_id : String) (o : Oracle) (saveOk : Bool)
    (st : SysState) : Except String String × SysState :=
  match ensure_user_thread user_id o saveOk st with
  | (.error e, st1) => (.ok ("Failed to send message: " ++ e), st1)
  | (.ok _, st1) =>
    match o.getAgent with
    | .error e => (.ok ("Failed to send message: " ++ e), st1)
    | .ok _ =>
      match o.msgCreate with
      | .error e => (.ok ("Failed to send message: " ++ e), st1)
      | .ok _ =>
        match o.runResult with
        | .error e => (.ok ("Failed to send message: " ++ e), st1)
        | .ok run =>
          if run.status = "failed" then
            (.ok ("Agent run failed: " ++ run.last_error), st1)
          else
            match o.msgsDescending with
            | .error e => (.ok ("Failed to send message: " ++ e), st1)
            | .ok msgs =>
              match findAssistantReply msgs with
              | some response => (.ok response, st1)
              | none => (.ok "No response received from agent.", st1)

/-- `list_messages` (azure_agent.py lines 308–346), non-test mode: an
explicit no-thread result when the user has no entry — without touching
the dict — otherwise the formatted transcript; raised exceptions become
a normally returned error string. -/
def list_messages (user_id : String) (o : Oracle) (saveOk : Bool)
    (st : SysState) : Except String String × SysState :=
  if (st.user_threads.lookup user_id).isSome = false then
    (.ok "No messages found. User has no active thread.", st)
  else
    match o.msgsAscending with
    | .error e => (.ok ("Failed to list messages: " ++ e), st)
    | .ok msgs =>
      let formatted := msgs.filterMap (fun m =>
        (m.texts.getLast?).map (fun content => m.role ++ ": " ++ content))
      if formatted = [] then (.ok "No messages found in thread.", st)
      else (.ok (String.intercalate "\n\n" formatted), st)

/-! ## The request surface and the `_current_token` slot

`handle_call_tool` (main.py lines 151–192) does not receive the
request's credential: it reads the process-wide mutable `_current_token`
(main.py lines 147–148), which `handle_mcp_request` (main.py lines
201–331) assigns before dispatching and resets in its `finally`.  The
identity a tool call is keyed under is therefore a function of the
slot's current content alone. -/

def handle_call_tool_user (current_token : Option String) : Option String :=
  match current_token with
  | none => none
  | some tok => some (get_user_id_from_token tok)

/-- The slot content after a sequence of handlers have each executed
their `_current_token = token` assignment (main.py line 218) without
yet reaching their tool dispatch: the last writer wins. -/
def slotAfterAssignments (tokens : List String) : Option String :=
  tokens.foldl (fun _ tok => some tok) none

/-! ## Interleaved runs of `_ensure_user_thread`

Each concurrent call to `_ensure_user_thread(i)` holds the mapping lock
twice: once for the first presence check and once for the re-check and
insert, with the remote thread creation in between, outside the lock.
A call is one process with two atomic transitions:

* from `start`: the first locked section — an empty id raises
  (`failed`); a present entry returns it (`done`); otherwise the
  process leaves the lock and performs the remote creation, whose
  result only it can observe, so the creation is merged into this
  transition (`created h`, `h` drawn from the per-process oracle);
* from `created h`: the second locked section — the double-check
  returns an entry inserted meanwhile, else inserts `h` and saves.

An arbitrary interleaving is a schedule: the list of process indices in
the order the lock admits them. -/

inductive ProcPhase where
  | start
  | created (h : String)
  | failed
  | done (ret : String)
  deriving DecidableEq

def ProcPhase.retOf : ProcPhase → Option String
  | .done r => some r
  | _ => none

def ProcPhase.isDone : ProcPhase → Bool
  | .done _ => true
  | _ => false

/-- Shared table and file plus each process's phase. -/
structure Machine (n : Nat) where
  table : Table
  file : FileState
  procs : Fin n → ProcPhase

/-- One atomic transition of process `p` in an interleaved run of
`_ensure_user_thread i`; `handleOf p` is the thread id the remote
service returns to `p`, `saveOk p` whether the save by `p` succeeds. -/
def machineStep (i : String) (handleOf : Fin n → String) (saveOk : Fin n → Bool)
    (s : Machine n) (p : Fin n) : Machine n :=
  match s.procs p with
  | .start =>
    if i = "" then
      Machine.mk s.table s.file (Function.update s.procs p .failed)
    else
      match s.table.lookup i with
      | some h => Machine.mk s.table s.file (Function.update s.procs p (.done h))
      | none =>
        Machine.mk s.table s.file (Function.update s.procs p (.created (handleOf p)))
  | .created h =>
    match s.table.lookup i with
    | some h2 => Machine.mk s.table s.file (Function.update s.procs p (.done h2))
    | none =>
      let t2 := s.table.insertKey i h
      Machine.mk t2 (save_user_thread_mapping_locked (saveOk p) t2 s.file)
        (Function.update s.procs p (.done h))
  | .failed => s
  | .done _ => s

/-- Run a whole schedule. -/
def machineExec (i : String) (handleOf : Fin n → String) (saveOk : Fin n → Bool)
    (s : Machine n) (sched : List (Fin n)) : Machine n :=
  sched.foldl (machineStep i handleOf saveOk) s

/-- All processes at their first transition, over an initial table and
file. -/
def machineInit (n : Nat) (t0 : Table) (f0 : FileState) : Machine n :=
  Machine.mk t0 f0 (fun _ => ProcPhase.start)

/-- Machine invariant: keys stay unique and every finished process
returned exactly the handle currently filed under `i`. -/
def MachineInv (i : String) (s : Machine n) : Prop :=
  s.table.nodupKeys ∧
  ∀ p r, s.procs p = ProcPhase.done r → s.table.lookup i = some r

/-! # Theorems

Basic facts about the dict embedding. -/

theorem Table.lookup_eq_none_iff (t : Table) (k : String) :
    t.lookup k = none ↔ k ∉ t.map Prod.fst := by
  induction t with
  | nil => simp [Table.lookup]
  | cons e rest ih =>
    obtain ⟨k₁, v₁⟩ := e
    simp only [Table.lookup, List.map_cons, List.mem_cons, not_or]
    by_cases h : k₁ = k
    · subst h; simp
    · have hne : ¬k = k₁ := fun hh => h hh.symm
      simp [h, ih, hne]

theorem Table.lookup_insertKey_self (t : Table) (k v : String) :
    (t.insertKey k v).lookup k = some v := by
  induction t with
  | nil => simp [Table.insertKey, Table.lookup]
  | cons e rest ih =>
    obtain ⟨k₁, v₁⟩ := e
    by_cases h : k₁ = k <;> simp [Table.insertKey, Table.lookup, h, ih]

theorem Table.insertKey_of_lookup_none (t : Table) (k v : String)
    (h : t.lookup k = none) : t.insertKey k v = t ++ [(k, v)] := by
  induction t with
  | nil => simp [Table.insertKey]
  | cons e rest ih =>
    obtain ⟨k₁, v₁⟩ := e
    by_cases hk : k₁ = k
    · simp [Table.lookup, hk] at h
    · simp only [Table.lookup, hk, if_false] at h
      simp [Table.insertKey, hk, ih h]

theorem Table.nodupKeys_insertKey (t : Table) (k v : String)
    (hn : t.nodupKeys) (h : t.lookup k = none) :
    (t.insertKey k v).nodupKeys := by
  rw [Table.insertKey_of_lookup_none t k v h]
  rw [Table.lookup_eq_none_iff] at h
  simp only [Table.nodupKeys, List.map_append, List.map_cons, List.map_nil] at hn ⊢
  rw [List.nodup_append]
  refine ⟨hn, List.nodup_singleton k, ?_⟩
  intro a ha hb
  simp only [List.mem_singleton] at hb
  subst hb
  exact h ha

theorem Table.countKey_eq_zero_iff (t : Table) (k : String) :
    t.countKey k = 0 ↔ k ∉ t.map Prod.fst := by
  induction t with
  | nil => simp [Table.countKey]
  | cons e rest ih =>
    obtain ⟨k₁, v₁⟩ := e
    simp only [Table.countKey, List.filter_cons] at ih ⊢
    by_cases h : k₁ = k
    · subst h; simp
    · have hne : ¬k = k₁ := fun hh => h hh.symm
      simp [h, ih, hne]

theorem Table.countKey_eq_one (t : Table) (k v : String)
    (hn : t.nodupKeys) (h : t.lookup k = some v) :
    t.countKey k = 1 := by
  induction t with
  | nil => simp [Table.lookup] at h
  | cons e rest ih =>
    obtain ⟨k₁, v₁⟩ := e
    simp only [Table.nodupKeys, List.map_cons, List.nodup_cons] at hn
    simp only [Table.countKey, List.filter_cons]
    by_cases hk : k₁ = k
    · subst hk
      have h0 : Table.countKey rest k₁ = 0 := (Table.countKey_eq_zero_iff rest k₁).2 hn.1
      simp only [Table.countKey] at h0
      simp [h0]
    · simp only [Table.lookup, hk, if_false] at h
      have h1 := ih hn.2 h
      simp only [Table.countKey] at h1
      simp [hk, h1]

theorem Table.lookup_eraseKey_self (t : Table) (k : String)
    (hn : t.nodupKeys) : (t.eraseKey k).lookup k = none := by
  induction t with
  | nil => simp [Table.eraseKey, Table.lookup]
  | cons e rest ih =>
    obtain ⟨k₁, v₁⟩ := e
    simp only [Table.nodupKeys, List.map_cons, List.nodup_cons] at hn
    by_cases hk : k₁ = k
    · subst hk
      have he : Table.eraseKey ((k₁, v₁) :: rest) k₁ = rest := by
        simp [Table.eraseKey]
      rw [he, Table.lookup_eq_none_iff]
      exact hn.1
    · simp [Table.eraseKey, Table.lookup, hk, ih hn.2]

/-! Invariant preservation for the interleaved `_ensure_user_thread`
machine. -/

theorem machineInv_of_update {n : Nat} (i : String) (t : Table) (f : FileState)
    (procs : Fin n → ProcPhase) (p : Fin n) (ph : ProcPhase)
    (hnodup : t.nodupKeys)
    (hdone : ∀ q r, procs q = ProcPhase.done r → t.lookup i = some r)
    (hph : ∀ r, ph = ProcPhase.done r → t.lookup i = some r) :
    MachineInv i (Machine.mk t f (Function.update procs p ph)) := by
  refine ⟨hnodup, fun q r hq => ?_⟩
  simp only at hq
  by_cases hqp : q = p
  · subst hqp; rw [Function.update_same] at hq; exact hph r hq
  · rw [Function.update_noteq hqp] at hq; exact hdone q r hq

theorem machineStep_inv {n : Nat} (i : String) (handleOf : Fin n → String)
    (saveOk : Fin n → Bool) (s : Machine n) (p : Fin n)
    (h : MachineInv i s) : MachineInv i (machineStep i handleOf saveOk s p) := by
  obtain ⟨hnodup, hdone⟩ := h
  cases hp : s.procs p with
  | start =>
    simp only [machineStep, hp]
    split
    · exact machineInv_of_update i _ _ _ _ _ hnodup hdone (fun r hr => nomatch hr)
    · split
      · rename_i hh hl
        exact machineInv_of_update i _ _ _ _ _ hnodup hdone
          (fun r hr => by cases hr; exact hl)
      · exact machineInv_of_update i _ _ _ _ _ hnodup hdone (fun r hr => nomatch hr)
  | created hh =>
    simp only [machineStep, hp]
    split
    · rename_i h2 hl
      exact machineInv_of_update i _ _ _ _ _ hnodup hdone
        (fun r hr => by cases hr; exact hl)
    · rename_i hl
      refine machineInv_of_update i _ _ _ _ _
        (Table.nodupKeys_insertKey _ _ _ hnodup hl)
        (fun q r hq => absurd (hdone q r hq) (by simp [hl]))
        (fun r hr => by cases hr; exact Table.lookup_insertKey_self _ _ _)
  | failed => simpa only [machineStep, hp] using ⟨hnodup, hdone⟩
  | done r => simpa only [machineStep, hp] using ⟨hnodup, hdone⟩

theorem machineExec_inv {n : Nat} (i : String) (handleOf : Fin n → String)
    (saveOk : Fin n → Bool) (s : Machine n) (sched : List (Fin n))
    (h : MachineInv i s) :
    MachineInv i (machineExec i handleOf saveOk s sched) := by
  induction sched generalizing s with
  | nil => exact h
  | cons p rest ih =>
    exact ih _ (machineStep_inv i handleOf saveOk s p h)

/-- C1: for every identity `i`, after any set of concurrent
`_ensure_user_thread i` calls (modelled as processes of the interleaved
machine, run under an arbitrary schedule from an arbitrary well-formed
initial table) has completed, the table holds exactly one entry for `i`
and every call returned that entry's handle — even on schedules where
several processes each performed a remote thread creation. -/
theorem c1_concurrent_resolve_single_entry
    (n : Nat) (hn : 0 < n) (i : String)
    (handleOf : Fin n → String) (saveOk : Fin n → Bool)
    (t0 : Table) (f0 : FileState) (h0 : t0.nodupKeys) (sched : List (Fin n))
    (hdone : ∀ p, ((machineExec i handleOf saveOk (machineInit n t0 f0) sched).procs p).isDone = true) :
    ∃ v, (machineExec i handleOf saveOk (machineInit n t0 f0) sched).table.lookup i = some v ∧
      (machineExec i handleOf saveOk (machineInit n t0 f0) sched).table.countKey i = 1 ∧
      ∀ p, ((machineExec i handleOf saveOk (machineInit n t0 f0) sched).procs p).retOf = some v := by
  have hinv : MachineInv i (machineExec i handleOf saveOk (machineInit n t0 f0) sched) :=
    machineExec_inv i handleOf saveOk _ sched ⟨h0, fun q r hq => by simp [machineInit] at hq⟩
  set final := machineExec i handleOf saveOk (machineInit n t0 f0) sched with hfinal
  obtain ⟨hnodup, hret⟩ := hinv
  have hp0 := hdone ⟨0, hn⟩
  obtain ⟨v, hv⟩ : ∃ v, final.procs ⟨0, hn⟩ = ProcPhase.done v := by
    cases hq : final.procs ⟨0, hn⟩ <;> simp [hq, ProcPhase.isDone] at hp0 ⊢
  refine ⟨v, hret _ v hv, Table.countKey_eq_one _ _ v hnodup (hret _ v hv), fun p => ?_⟩
  have hp := hdone p
  obtain ⟨r, hr⟩ : ∃ r, final.procs p = ProcPhase.done r := by
    cases hq : final.procs p <;> simp [hq, ProcPhase.isDone] at hp ⊢
  have := hret p r hr
  rw [hret _ v hv] at this
  cases this
  simp [hr, ProcPhase.retOf]

/-- Witness for C1: two processes racing on identity `u` from an empty
table, both performing a remote creation (schedule `[0, 1, 0, 1]`,
handles `T1` and `T2`); the hypotheses hold and the conclusion follows
by the theorem. -/
theorem c1_witness_concrete :
    ((0 : Nat) < 2 ∧ Table.nodupKeys ([] : Table) ∧
      ∀ p : Fin 2, ((machineExec "u" (fun q => if q = 0 then "T1" else "T2")
        (fun _ => true) (machineInit 2 [] FileState.absent)
        [0, 1, 0, 1]).procs p).isDone = true) ∧
    (∃ v, (machineExec "u" (fun q => if q = 0 then "T1" else "T2")
        (fun _ => true) (machineInit 2 [] FileState.absent)
        [0, 1, 0, 1]).table.lookup "u" = some v ∧
      (machineExec "u" (fun q => if q = 0 then "T1" else "T2")
        (fun _ => true) (machineInit 2 [] FileState.absent)
        [0, 1, 0, 1]).table.countKey "u" = 1 ∧
      ∀ p : Fin 2, ((machineExec "u" (fun q => if q = 0 then "T1" else "T2")
        (fun _ => true) (machineInit 2 [] FileState.absent)
        [0, 1, 0, 1]).procs p).retOf = some v) :=
  ⟨⟨by decide, by decide, by decide⟩,
   c1_concurrent_resolve_single_entry 2 (by decide) "u"
     (fun q => if q = 0 then "T1" else "T2") (fun _ => true) [] FileState.absent
     (by decide) [0, 1, 0, 1] (by decide)⟩

/-! Facts about the hex digest needed for C2. -/

theorem Sha256.length_hexdigestChars (s : String) :
    (Sha256.hexdigestChars s).length = 64 := by
  simp [Sha256.hexdigestChars, Sha256.wordHexChars]

theorem hexDigitChar_mem_of_lt (m : Nat) (h : m < 16) :
    hexDigitChar m ∈ lowercaseHexDigits := by
  interval_cases m <;> decide

theorem Sha256.mem_hexdigestChars (s : String) (ch : Char)
    (h : ch ∈ Sha256.hexdigestChars s) : ch ∈ lowercaseHexDigits := by
  simp only [Sha256.hexdigestChars, List.mem_flatten, List.mem_map] at h
  obtain ⟨l, ⟨w, hw, rfl⟩, hch⟩ := h
  simp only [Sha256.wordHexChars, List.mem_map, List.mem_range] at hch
  obtain ⟨idx, hidx, rfl⟩ := hch
  exact hexDigitChar_mem_of_lt _ (Nat.mod_lt _ (by omega))

/-- C2: the identity derivation is deterministic, returns exactly the
first 16 characters of the SHA-256 hex digest of the credential, and
that output is a fixed-length 16-character lowercase hexadecimal
string. -/
theorem c2_user_id_deterministic_hex16 (c : String) :
    get_user_id_from_token c = get_user_id_from_token c ∧
    (get_user_id_from_token c).data = (Sha256.hexdigest c).data.take 16 ∧
    (get_user_id_from_token c).length = 16 ∧
    ∀ ch ∈ (get_user_id_from_token c).data, ch ∈ lowercaseHexDigits := by
  refine ⟨rfl, rfl, ?_, ?_⟩
  · show ((Sha256.hexdigestChars c).take 16).length = 16
    simp [List.length_take, Sha256.length_hexdigestChars]
  · intro ch hch
    exact Sha256.mem_hexdigestChars c ch (List.take_subset 16 _ hch)

/-- C7: `list_messages` on an identity with no entry answers with the
explicit no-thread result and leaves the whole state — in particular
the table — untouched: listing never creates a thread. -/
theorem c7_list_messages_no_create (i : String) (o : Oracle) (saveOk : Bool)
    (st : SysState) (h : st.user_threads.lookup i = none) :
    list_messages i o saveOk st =
      (Except.ok "No messages found. User has no active thread.", st) := by
  simp [list_messages, h]

/-- Witness for C7: a user with no entry over a nonempty table. -/
theorem c7_witness_concrete :
    (SysState.mk [("w", "T9")] FileState.absent).user_threads.lookup "u" = none ∧
    list_messages "u"
      (Oracle.mk (.ok "T1") (.ok ()) (.ok ()) (.ok (RunInfo.mk "completed" ""))
        (.ok []) (.ok [])) true (SysState.mk [("w", "T9")] FileState.absent) =
      (Except.ok "No messages found. User has no active thread.",
       SysState.mk [("w", "T9")] FileState.absent) :=
  ⟨by decide,
   c7_list_messages_no_create "u"
     (Oracle.mk (.ok "T1") (.ok ()) (.ok ()) (.ok (RunInfo.mk "completed" ""))
       (.ok []) (.ok [])) true (SysState.mk [("w", "T9")] FileState.absent)
     (by decide)⟩

/-- C10: the gateway operations are total at the public interface —
whatever the oracle raises internally (including an empty user id, a
failing remote call or a failed run), `send_message`, `list_messages`
and `clear_conversation` return an `.ok` string; nothing propagates. -/
theorem c10_gateway_total (message user_id : String) (o : Oracle) (saveOk : Bool)
    (st : SysState) :
    (∃ s st2, send_message message user_id o saveOk st = (Except.ok s, st2)) ∧
    (∃ s st2, list_messages user_id o saveOk st = (Except.ok s, st2)) ∧
    (∃ s st2, clear_conversation user_id o saveOk st = (Except.ok s, st2)) := by
  refine ⟨?_, ?_, ?_⟩
  · unfold send_message
    repeat' split
    all_goals exact ⟨_, _, rfl⟩
  · unfold list_messages
    repeat' split
    all_goals
      first
      | exact ⟨_, _, rfl⟩
      | (dsimp only; split <;> exact ⟨_, _, rfl⟩)
  · unfold clear_conversation
    dsimp only
    repeat' split
    all_goals exact ⟨_, _, rfl⟩

/-! Helper for C8: `_ensure_user_thread` run on states that agree on
the dict — differing only in the file and in whether the save succeeds
— returns the same value and the same dict. -/

theorem ensure_file_indep (i : String) (o : Oracle) (b1 b2 : Bool)
    (st1 st2 : SysState) (h : st1.user_threads = st2.user_threads) :
    (ensure_user_thread i o b1 st1).1 = (ensure_user_thread i o b2 st2).1 ∧
    (ensure_user_thread i o b1 st1).2.user_threads =
      (ensure_user_thread i o b2 st2).2.user_threads := by
  unfold ensure_user_thread
  rw [h]
  by_cases hi : i = ""
  · simp [hi, h]
  · simp only [hi, if_false]
    cases hl : st2.user_threads.lookup i with
    | some tid => simp [h]
    | none =>
      cases hc : o.createThread with
      | error e => simp [h]
      | ok tid => simp [hl, h]

/-- C8: a failing save leaves the in-memory table exactly as the
operation built it and never fails the in-flight operation: both
`_ensure_user_thread` and `clear_conversation` return the same value
and the same dict whether the file write succeeds or fails, a
`clear_conversation` still completes with an `.ok` result, and an
`_ensure_user_thread` whose remote creation succeeded still returns
`.ok` under a failing save. -/
theorem c8_save_failure_harmless (i : String) (o : Oracle) (st : SysState)
    (b1 b2 : Bool) :
    ((ensure_user_thread i o b1 st).1 = (ensure_user_thread i o b2 st).1 ∧
     (ensure_user_thread i o b1 st).2.user_threads =
       (ensure_user_thread i o b2 st).2.user_threads) ∧
    ((clear_conversation i o b1 st).1 = (clear_conversation i o b2 st).1 ∧
     (clear_conversation i o b1 st).2.user_threads =
       (clear_conversation i o b2 st).2.user_threads) ∧
    (∃ s, (clear_conversation i o b1 st).1 = Except.ok s) ∧
    (∀ tid, o.createThread = Except.ok tid → i ≠ "" →
      ∃ v, (ensure_user_thread i o b1 st).1 = Except.ok v) := by
  refine ⟨ensure_file_indep i o b1 b2 st st rfl, ?_, ?_, ?_⟩
  · unfold clear_conversation
    dsimp only
    by_cases hm : (st.user_threads.lookup i).isSome
    · simp only [hm, if_true]
      have he := ensure_file_indep i o b1 b2
        (SysState.mk (st.user_threads.eraseKey i)
          (save_user_thread_mapping_locked b1 (st.user_threads.eraseKey i) st.file))
        (SysState.mk (st.user_threads.eraseKey i)
          (save_user_thread_mapping_locked b2 (st.user_threads.eraseKey i) st.file))
        rfl
      rcases h1 : ensure_user_thread i o b1
        (SysState.mk (st.user_threads.eraseKey i)
          (save_user_thread_mapping_locked b1 (st.user_threads.eraseKey i) st.file)) with ⟨r1, s1⟩
      rcases h2 : ensure_user_thread i o b2
        (SysState.mk (st.user_threads.eraseKey i)
          (save_user_thread_mapping_locked b2 (st.user_threads.eraseKey i) st.file)) with ⟨r2, s2⟩
      rw [h1, h2] at he
      obtain ⟨he1, he2⟩ := he
      dsimp only at he1 he2
      subst he1
      cases r1 <;> simp [he2]
    · have hm2 : (st.user_threads.lookup i).isSome = false := by
        simpa using hm
      rw [hm2, if_neg (by simp), if_neg (by simp)]
      have he := ensure_file_indep i o b1 b2 st st rfl
      rcases h1 : ensure_user_thread i o b1 st with ⟨r1, s1⟩
      rcases h2 : ensure_user_thread i o b2 st with ⟨r2, s2⟩
      rw [h1, h2] at he
      obtain ⟨he1, he2⟩ := he
      dsimp only at he1 he2
      subst he1
      cases r1 <;> simp [he2]
  · unfold clear_conversation
    dsimp only
    split <;> exact ⟨_, rfl⟩
  · intro tid hc hi
    unfold ensure_user_thread
    simp only [hi, if_false]
    cases hl : st.user_threads.lookup i with
    | some t0 => exact ⟨t0, by simp⟩
    | none => simp [hc, hl]

/-- Witness for C8: with a succeeding remote creation and a failing
save, `_ensure_user_thread` still completes with an `.ok` result. -/
theorem c8_witness_concrete :
    ∃ v, (ensure_user_thread "u"
      (Oracle.mk (.ok "T1") (.ok ()) (.ok ()) (.ok (RunInfo.mk "completed" ""))
        (.ok []) (.ok []))
      false (SysState.mk [] FileState.absent)).1 = Except.ok v :=
  (c8_save_failure_harmless "u"
    (Oracle.mk (.ok "T1") (.ok ()) (.ok ()) (.ok (RunInfo.mk "completed" ""))
      (.ok []) (.ok []))
    (SysState.mk [] FileState.absent) false true).2.2.2 "T1" rfl (by decide)

/-- C6: `clear_conversation` on an identity holding `H1` removes the
old entry and reports both `H1` and the freshly created `H2` (distinct
in the common case of a fresh remote handle); the table then maps the
identity to `H2`, so a subsequent `_ensure_user_thread` — under any
oracle — returns `H2`; on an identity with no entry the old handle is
reported by the sentinel `None`. -/
theorem c6_reset_clears_and_recreates (i H1 H2 : String) (o : Oracle) (b : Bool)
    (st : SysState) (hn : st.user_threads.nodupKeys) (hi : i ≠ "")
    (hl : st.user_threads.lookup i = some H1)
    (hc : o.createThread = Except.ok H2) (hne : H2 ≠ H1) :
    (clear_conversation i o b st).1 =
      Except.ok ("Conversation cleared successfully. Old thread: " ++ H1 ++
        ", New thread: " ++ H2) ∧
    (clear_conversation i o b st).2.user_threads.lookup i = some H2 ∧ H2 ≠ H1 ∧
    (∀ o2 b2, (ensure_user_thread i o2 b2 (clear_conversation i o b st).2).1 =
      Except.ok H2) ∧
    (∀ st0 : SysState, st0.user_threads.lookup i = none →
      (clear_conversation i o b st0).1 =
        Except.ok ("Conversation cleared successfully. Old thread: None, New thread: " ++ H2)) := by
  have hL := Table.lookup_eraseKey_self st.user_threads i hn
  have hens : ensure_user_thread i o b (SysState.mk (st.user_threads.eraseKey i)
      (save_user_thread_mapping_locked b (st.user_threads.eraseKey i) st.file)) =
      (Except.ok H2, SysState.mk ((st.user_threads.eraseKey i).insertKey i H2)
        (save_user_thread_mapping_locked b ((st.user_threads.eraseKey i).insertKey i H2)
          (save_user_thread_mapping_locked b (st.user_threads.eraseKey i) st.file))) := by
    unfold ensure_user_thread
    simp [hi, hL, hc]
  have hclear : clear_conversation i o b st =
      (Except.ok ("Conversation cleared successfully. Old thread: " ++ H1 ++
        ", New thread: " ++ H2),
       SysState.mk ((st.user_threads.eraseKey i).insertKey i H2)
        (save_user_thread_mapping_locked b ((st.user_threads.eraseKey i).insertKey i H2)
          (save_user_thread_mapping_locked b (st.user_threads.eraseKey i) st.file))) := by
    unfold clear_conversation
    simp [hl, hens]
  refine ⟨by rw [hclear], ?_, hne, ?_, ?_⟩
  · rw [hclear]
    exact Table.lookup_insertKey_self _ _ _
  · intro o2 b2
    rw [hclear]
    unfold ensure_user_thread
    simp [hi, Table.lookup_insertKey_self]
  · intro st0 h0
    have hens0 : ensure_user_thread i o b st0 =
        (Except.ok H2, SysState.mk (st0.user_threads.insertKey i H2)
          (save_user_thread_mapping_locked b (st0.user_threads.insertKey i H2) st0.file)) := by
      unfold ensure_user_thread
      simp [hi, h0, hc]
    unfold clear_conversation
    simp [h0, hens0]

/-- Witness for C6: identity `u` mapped to `T1`, fresh handle `T2`. -/
theorem c6_witness_concrete :
    (Table.nodupKeys [("u", "T1")] ∧ ("u" : String) ≠ "" ∧
      Table.lookup [("u", "T1")] "u" = some "T1" ∧ ("T2" : String) ≠ "T1") ∧
    ((clear_conversation "u"
        (Oracle.mk (.ok "T2") (.ok ()) (.ok ()) (.ok (RunInfo.mk "completed" ""))
          (.ok []) (.ok []))
        true (SysState.mk [("u", "T1")] FileState.absent)).1 =
      Except.ok ("Conversation cleared successfully. Old thread: " ++ "T1" ++
        ", New thread: " ++ "T2") ∧
     (clear_conversation "u"
        (Oracle.mk (.ok "T2") (.ok ()) (.ok ()) (.ok (RunInfo.mk "completed" ""))
          (.ok []) (.ok []))
        true (SysState.mk [("u", "T1")] FileState.absent)).2.user_threads.lookup "u" =
      some "T2") :=
  ⟨⟨by decide, by decide, by decide, by decide⟩,
   by
    have h := c6_reset_clears_and_recreates "u" "T1" "T2"
      (Oracle.mk (.ok "T2") (.ok ()) (.ok ()) (.ok (RunInfo.mk "completed" ""))
        (.ok []) (.ok []))
      true (SysState.mk [("u", "T1")] FileState.absent)
      (by decide) (by decide) (by decide) rfl (by decide)
    exact ⟨h.1, h.2.1⟩⟩

/-- C3 as stated is false for `clear_conversation`: with an entry
present and a remote creation that raises, `clear_conversation` returns
normally with an `.ok` error string — the failure does not propagate to
its caller. -/
theorem c3_counterexample_clear_swallows :
    (Oracle.mk (Except.error "boom") (.ok ()) (.ok ())
      (.ok (RunInfo.mk "completed" "")) (.ok []) (.ok [])).createThread =
      Except.error "boom" ∧
    clear_conversation "u"
      (Oracle.mk (Except.error "boom") (.ok ()) (.ok ())
        (.ok (RunInfo.mk "completed" "")) (.ok []) (.ok []))
      true (SysState.mk [("u", "T1")] FileState.absent) =
      (Except.ok "Failed to clear conversation: boom",
       SysState.mk [] (FileState.stored "{}")) := by
  constructor
  · rfl
  · rfl

/-- C3 amended: a failing remote creation propagates out of
`_ensure_user_thread` with the table untouched, while
`clear_conversation` catches it and returns a descriptive error string;
in both cases no entry for the identity is (left) written in the
table. -/
theorem c3_amended_create_failure (i e : String) (o : Oracle) (b : Bool)
    (st : SysState) (hn : st.user_threads.nodupKeys) (hi : i ≠ "")
    (hc : o.createThread = Except.error e) :
    (st.user_threads.lookup i = none →
      ensure_user_thread i o b st = (Except.error e, st)) ∧
    (clear_conversation i o b st).1 =
      Except.ok ("Failed to clear conversation: " ++ e) ∧
    (clear_conversation i o b st).2.user_threads.lookup i = none := by
  have hens : ∀ st1 : SysState, st1.user_threads.lookup i = none →
      ensure_user_thread i o b st1 = (Except.error e, st1) := by
    intro st1 h1
    unfold ensure_user_thread
    simp [hi, h1, hc]
  refine ⟨hens st, ?_⟩
  cases hl : st.user_threads.lookup i with
  | none =>
    unfold clear_conversation
    simp [hl, hens st hl]
  | some H1 =>
    have hL := Table.lookup_eraseKey_self st.user_threads i hn
    have h2 := hens (SysState.mk (st.user_threads.eraseKey i)
      (save_user_thread_mapping_locked b (st.user_threads.eraseKey i) st.file)) hL
    unfold clear_conversation
    simp [hl, h2, hL]

/-- Witness for C3 (amended): concrete failing creation. -/
theorem c3_amended_witness_concrete :
    ensure_user_thread "u"
      (Oracle.mk (Except.error "boom") (.ok ()) (.ok ())
        (.ok (RunInfo.mk "completed" "")) (.ok []) (.ok []))
      true (SysState.mk [] FileState.absent) =
      (Except.error "boom", SysState.mk [] FileState.absent) :=
  (c3_amended_create_failure "u" "boom"
    (Oracle.mk (Except.error "boom") (.ok ()) (.ok ())
      (.ok (RunInfo.mk "completed" "")) (.ok []) (.ok []))
    true (SysState.mk [] FileState.absent)
    (by decide) (by decide) rfl).1 rfl

set_option maxRecDepth 100000 in
/-- C4 fails on the code: the identity `handle_call_tool` keys an
operation under is a function of the process-wide `_current_token` slot
alone, not of the call's own request.  Concretely: after the handler of
a concurrent request carrying `tokenB` executes its slot assignment
(last writer wins), a tool call belonging to the request that carried
`tokenA` is keyed under the identity derived from `tokenB`, which
differs from the identity of its own credential — two runs that differ
only in the slot's contents key the same caller to different
identities. -/
theorem c4_global_slot_leaks_identity :
    slotAfterAssignments ["tokenA", "tokenB"] = some "tokenB" ∧
    handle_call_tool_user (slotAfterAssignments ["tokenA", "tokenB"]) =
      some (get_user_id_from_token "tokenB") ∧
    handle_call_tool_user (some "tokenA") ≠ handle_call_tool_user (some "tokenB") ∧
    get_user_id_from_token "tokenB" ≠ get_user_id_from_token "tokenA" := by
  refine ⟨rfl, rfl, ?_, ?_⟩
  · intro h
    simp only [handle_call_tool_user, Option.some.injEq] at h
    exact absurd h (by decide)
  · decide

/-! JSON round trip: the parser inverts the encoder.  First the hex
digits, then one escaped character, then string bodies, entries and the
whole document. -/

theorem Json.hexVal_hexDigitChar (m : Nat) (h : m < 16) :
    Json.hexVal (hexDigitChar m) = some m := by
  interval_cases m <;> decide

theorem Json.hex4Val_hex4 (n : Nat) (h : n < 65536) :
    Json.hex4Val (hexDigitChar (n / 4096 % 16)) (hexDigitChar (n / 256 % 16))
      (hexDigitChar (n / 16 % 16)) (hexDigitChar (n % 16)) = some n := by
  have h1 := Json.hexVal_hexDigitChar (n / 4096 % 16) (Nat.mod_lt _ (by omega))
  have h2 := Json.hexVal_hexDigitChar (n / 256 % 16) (Nat.mod_lt _ (by omega))
  have h3 := Json.hexVal_hexDigitChar (n / 16 % 16) (Nat.mod_lt _ (by omega))
  have h4 := Json.hexVal_hexDigitChar (n % 16) (Nat.mod_lt _ (by omega))
  simp only [Json.hex4Val, h1, h2, h3, h4, Option.some.injEq]
  omega

theorem char_valid_ranges (c : Char) :
    c.toNat < 0xD800 ∨ (0xDFFF < c.toNat ∧ c.toNat < 0x110000) := c.valid

theorem Json.parseEsc_short (e c : Char) (t : List Char) (hne : e ≠ 'u')
    (he : Json.escVal e = some c) :
    Json.parseEsc (e :: t) = some (c, t) := by
  rw [Json.parseEsc.eq_def]
  simp +decide [hne, he]

theorem Json.parseEsc_u (a b c2 d : Char) (t : List Char) (n : Nat)
    (hv : Json.hex4Val a b c2 d = some n)
    (hs1 : ¬(0xD800 ≤ n ∧ n < 0xDC00)) (hs2 : ¬(0xDC00 ≤ n ∧ n < 0xE000)) :
    Json.parseEsc ('u' :: a :: b :: c2 :: d :: t) = some (Char.ofNat n, t) := by
  rw [Json.parseEsc.eq_def]
  simp +decide [hv, hs1, hs2]

theorem Json.parseEsc_surrogatePair (a b c2 d a2 b2 c3 d2 : Char)
    (t : List Char) (n m : Nat)
    (hv1 : Json.hex4Val a b c2 d = some n) (hn : 0xD800 ≤ n ∧ n < 0xDC00)
    (hv2 : Json.hex4Val a2 b2 c3 d2 = some m) (hm : 0xDC00 ≤ m ∧ m < 0xE000) :
    Json.parseEsc ('u' :: a :: b :: c2 :: d :: '\\' :: 'u' :: a2 :: b2 :: c3 :: d2 :: t) =
      some (Char.ofNat (0x10000 + (n - 0xD800) * 0x400 + (m - 0xDC00)), t) := by
  rw [Json.parseEsc.eq_def]
  simp +decide [hv1, hn, hv2, hm]

theorem Json.parseStrBody_quote (f : Nat) (t : List Char) :
    Json.parseStrBody (f + 1) ('"' :: t) = some ([], t) := by
  rw [Json.parseStrBody.eq_def]
  simp +decide

theorem Json.parseStrBody_escStep (f : Nat) (rest rest2 : List Char) (c4 : Char)
    (hesc : Json.parseEsc rest = some (c4, rest2)) :
    Json.parseStrBody (f + 1) ('\\' :: rest) =
      (Json.parseStrBody f rest2).map (fun p => (c4 :: p.1, p.2)) := by
  rw [Json.parseStrBody.eq_def]
  simp +decide [hesc]

theorem Json.parseStrBody_plain (f : Nat) (c : Char) (t : List Char) (h1 : c ≠ '"')
    (h2 : c ≠ '\\') (h3 : ¬c.toNat < 0x20) :
    Json.parseStrBody (f + 1) (c :: t) =
      (Json.parseStrBody f t).map (fun p => (c :: p.1, p.2)) := by
  rw [Json.parseStrBody.eq_def]
  simp +decide [h1, h2, h3]

theorem Json.parseStrBody_escapeChar (c : Char) (t : List Char) (f : Nat) :
    Json.parseStrBody (f + 1) (Json.escapeChar c ++ t) =
      (Json.parseStrBody f t).map (fun p => (c :: p.1, p.2)) := by
  unfold Json.escapeChar
  split_ifs with h1 h2 h3 h4 h5 h6 h7 h8 h9
  · subst h1
    simp only [List.cons_append, List.nil_append]
    exact Json.parseStrBody_escStep f _ t '"'
      (Json.parseEsc_short '"' '"' t (by decide) rfl)
  · subst h2
    simp only [List.cons_append, List.nil_append]
    exact Json.parseStrBody_escStep f _ t '\\'
      (Json.parseEsc_short '\\' '\\' t (by decide) rfl)
  · have hc : Char.ofNat 8 = c := by rw [← h3, Char.ofNat_toNat]
    simp only [List.cons_append, List.nil_append]
    rw [Json.parseStrBody_escStep f _ t (Char.ofNat 8)
      (Json.parseEsc_short 'b' (Char.ofNat 8) t (by decide) rfl), hc]
  · have hc : Char.ofNat 9 = c := by rw [← h4, Char.ofNat_toNat]
    simp only [List.cons_append, List.nil_append]
    rw [Json.parseStrBody_escStep f _ t (Char.ofNat 9)
      (Json.parseEsc_short 't' (Char.ofNat 9) t (by decide) rfl), hc]
  · have hc : Char.ofNat 10 = c := by rw [← h5, Char.ofNat_toNat]
    simp only [List.cons_append, List.nil_append]
    rw [Json.parseStrBody_escStep f _ t (Char.ofNat 10)
      (Json.parseEsc_short 'n' (Char.ofNat 10) t (by decide) rfl), hc]
  · have hc : Char.ofNat 12 = c := by rw [← h6, Char.ofNat_toNat]
    simp only [List.cons_append, List.nil_append]
    rw [Json.parseStrBody_escStep f _ t (Char.ofNat 12)
      (Json.parseEsc_short 'f' (Char.ofNat 12) t (by decide) rfl), hc]
  · have hc : Char.ofNat 13 = c := by rw [← h7, Char.ofNat_toNat]
    simp only [List.cons_append, List.nil_append]
    rw [Json.parseStrBody_escStep f _ t (Char.ofNat 13)
      (Json.parseEsc_short 'r' (Char.ofNat 13) t (by decide) rfl), hc]
  · simp only [List.cons_append, List.nil_append]
    exact Json.parseStrBody_plain f c t h1 h2 (by omega)
  · have hsur : ¬(0xD800 ≤ c.toNat ∧ c.toNat < 0xDC00) := by
      rcases char_valid_ranges c with h | h <;> omega
    have hsur2 : ¬(0xDC00 ≤ c.toNat ∧ c.toNat < 0xE000) := by
      rcases char_valid_ranges c with h | h <;> omega
    simp only [Json.hex4, List.cons_append, List.nil_append]
    rw [Json.parseStrBody_escStep f _ t (Char.ofNat c.toNat)
        (Json.parseEsc_u _ _ _ _ t c.toNat (Json.hex4Val_hex4 c.toNat h9) hsur hsur2),
      Char.ofNat_toNat]
  · rcases char_valid_ranges c with h | h
    · omega
    · obtain ⟨hgt, hlt⟩ := h
      have hdiv : (c.toNat - 0x10000) / 0x400 < 0x400 := by omega
      have hmod := Nat.mod_lt (c.toNat - 0x10000) (show 0 < 0x400 by omega)
      have hhi : 0xD800 + (c.toNat - 0x10000) / 0x400 < 65536 := by omega
      have hlo : 0xDC00 + (c.toNat - 0x10000) % 0x400 < 65536 := by omega
      have hrecomb : 0x10000 +
          (0xD800 + (c.toNat - 0x10000) / 0x400 - 0xD800) * 0x400 +
          (0xDC00 + (c.toNat - 0x10000) % 0x400 - 0xDC00) = c.toNat := by
        have := Nat.div_add_mod (c.toNat - 0x10000) 0x400
        omega
      simp only [Json.hex4, List.cons_append, List.nil_append, List.append_assoc]
      rw [Json.parseStrBody_escStep f _ t _
          (Json.parseEsc_surrogatePair _ _ _ _ _ _ _ _ t _ _
            (Json.hex4Val_hex4 _ hhi) (by omega) (Json.hex4Val_hex4 _ hlo) (by omega)),
        hrecomb, Char.ofNat_toNat]

theorem Json.parseStrBody_escapeChars (l : List Char) (t : List Char) (f : Nat)
    (hf : l.length < f) :
    Json.parseStrBody f (Json.escapeChars l ++ '"' :: t) = some (l, t) := by
  induction l generalizing f t with
  | nil =>
    cases f with
    | zero => omega
    | succ f2 => simpa [Json.escapeChars] using Json.parseStrBody_quote f2 t
  | cons c rest ih =>
    cases f with
    | zero => omega
    | succ f2 =>
      have hstream : Json.escapeChars (c :: rest) ++ '"' :: t =
          Json.escapeChar c ++ (Json.escapeChars rest ++ '"' :: t) := by
        simp [Json.escapeChars]
      rw [hstream, Json.parseStrBody_escapeChar c _ f2,
        ih t f2 (by simp only [List.length_cons] at hf; omega)]
      rfl

theorem string_mk_data (s : String) : String.mk s.data = s := rfl

theorem Json.parseJString_escapeString (s : String) (t : List Char) (F : Nat)
    (hf : s.data.length < F) :
    Json.parseJString F (Json.escapeString s ++ t) = some (s, t) := by
  unfold Json.parseJString Json.escapeString
  simp only [List.cons_append, List.append_assoc, List.nil_append]
  rw [show Json.expectChar '"'
      ('"' :: (Json.escapeChars s.data ++ ('"' :: t))) =
      some (Json.escapeChars s.data ++ ('"' :: t)) from by
    simp +decide [Json.expectChar]]
  dsimp only
  rw [Json.parseStrBody_escapeChars s.data t F hf]
  simp [string_mk_data]

theorem Json.skipWs_ws (c : Char) (l : List Char)
    (h : c = ' ' ∨ c = '\n' ∨ c = '\t' ∨ c = '\r') :
    Json.skipWs (c :: l) = Json.skipWs l := by
  simp [Json.skipWs, h]

theorem Json.skipWs_stop (c : Char) (l : List Char)
    (h : ¬(c = ' ' ∨ c = '\n' ∨ c = '\t' ∨ c = '\r')) :
    Json.skipWs (c :: l) = c :: l := by
  simp [Json.skipWs, h]

theorem Json.skipWs_skipWs (l : List Char) :
    Json.skipWs (Json.skipWs l) = Json.skipWs l := by
  induction l with
  | nil => simp [Json.skipWs]
  | cons c rest ih =>
    by_cases h : c = ' ' ∨ c = '\n' ∨ c = '\t' ∨ c = '\r'
    · rw [Json.skipWs_ws c rest h, ih]
    · rw [Json.skipWs_stop c rest h, Json.skipWs_stop c rest h]

theorem Json.skipWs_escapeString (s : String) (X : List Char) :
    Json.skipWs (Json.escapeString s ++ X) = Json.escapeString s ++ X := by
  simp only [Json.escapeString, List.cons_append]
  exact Json.skipWs_stop '"' _ (by decide)

theorem Json.parseEntry_encodeEntry (k v : String) (t : List Char) (F : Nat)
    (hk : k.data.length < F) (hv : v.data.length < F) :
    Json.parseEntry F (Json.encodeEntry (k, v) ++ t) = some ((k, v), t) := by
  unfold Json.parseEntry Json.encodeEntry
  simp only [List.cons_append, List.append_assoc]
  rw [Json.skipWs_ws ' ' _ (by decide), Json.skipWs_ws ' ' _ (by decide),
    Json.skipWs_escapeString,
    Json.parseJString_escapeString k (':' :: ' ' :: (Json.escapeString v ++ t)) F hk]
  dsimp only
  rw [Json.skipWs_stop ':' _ (by decide)]
  rw [show Json.expectChar ':' (':' :: (' ' :: (Json.escapeString v ++ t))) =
      some (' ' :: (Json.escapeString v ++ t)) from by
    simp +decide [Json.expectChar]]
  dsimp only
  rw [Json.skipWs_ws ' ' _ (by decide), Json.skipWs_escapeString,
    Json.parseJString_escapeString v t F hv]

theorem Json.parseEntry_cons_nl (F : Nat) (l : List Char) :
    Json.parseEntry F ('\n' :: l) = Json.parseEntry F l := by
  unfold Json.parseEntry
  rw [Json.skipWs_ws '\n' l (by decide)]

theorem Json.parseEntry_skipWs (F : Nat) (l : List Char) :
    Json.parseEntry F (Json.skipWs l) = Json.parseEntry F l := by
  unfold Json.parseEntry
  rw [Json.skipWs_skipWs]

theorem Json.parseEntriesAux_cons_nl (F f : Nat) (l : List Char) :
    Json.parseEntriesAux F (f + 1) ('\n' :: l) = Json.parseEntriesAux F (f + 1) l := by
  simp only [Json.parseEntriesAux, Json.parseEntry_cons_nl]

theorem Json.parseEntriesAux_skipWs (F f : Nat) (l : List Char) :
    Json.parseEntriesAux F (f + 1) (Json.skipWs l) =
      Json.parseEntriesAux F (f + 1) l := by
  simp only [Json.parseEntriesAux, Json.parseEntry_skipWs]

theorem Json.parseEntriesAux_encodeEntries (es : Table) (t : List Char) (F : Nat)
    (hlen : ∀ e ∈ es, e.1.data.length < F ∧ e.2.data.length < F) :
    ∀ f : Nat, es ≠ [] → es.length ≤ f →
    Json.parseEntriesAux F f (Json.encodeEntries es ++ '\n' :: '}' :: t) = some (es, t) := by
  induction es generalizing t with
  | nil => intro f hne; exact absurd rfl hne
  | cons e rest ih =>
    intro f hne hfuel
    obtain ⟨k, v⟩ := e
    obtain ⟨hk, hv⟩ := hlen (k, v) (by simp)
    cases f with
    | zero => simp at hfuel
    | succ f2 =>
      cases rest with
      | nil =>
        simp only [Json.encodeEntries, Json.parseEntriesAux]
        rw [Json.parseEntry_encodeEntry k v _ F hk hv]
        dsimp only
        rw [Json.skipWs_ws '\n' _ (by decide), Json.skipWs_stop '}' _ (by decide)]
        simp +decide
      | cons e2 rest2 =>
        have hf2 : 1 ≤ f2 := by
          simp only [List.length_cons] at hfuel
          omega
        obtain ⟨f3, rfl⟩ : ∃ f3, f2 = f3 + 1 := ⟨f2 - 1, by omega⟩
        simp only [Json.encodeEntries, List.append_assoc, List.cons_append]
        rw [Json.parseEntriesAux.eq_def]
        dsimp only
        rw [Json.parseEntry_encodeEntry k v _ F hk hv]
        dsimp only
        rw [Json.skipWs_stop ',' _ (by decide)]
        dsimp only
        rw [if_pos rfl]
        rw [Json.parseEntriesAux_cons_nl F f3 _]
        rw [ih t (fun e he => hlen e (List.mem_cons_of_mem _ he)) (f3 + 1)
          (by simp) (by simp only [List.length_cons] at hfuel ⊢; omega)]

theorem Json.escapeChar_length_pos (c : Char) : 0 < (Json.escapeChar c).length := by
  unfold Json.escapeChar
  split_ifs <;> simp [Json.hex4]

theorem Json.length_le_escapeChars (l : List Char) :
    l.length ≤ (Json.escapeChars l).length := by
  induction l with
  | nil => simp [Json.escapeChars]
  | cons c rest ih =>
    have hpos := Json.escapeChar_length_pos c
    simp only [Json.escapeChars, List.map_cons, List.flatten_cons, List.length_append,
      List.length_cons] at ih ⊢
    omega

theorem Json.encodeEntry_bounds (k v : String) :
    k.data.length < (Json.encodeEntry (k, v)).length ∧
    v.data.length < (Json.encodeEntry (k, v)).length ∧
    0 < (Json.encodeEntry (k, v)).length := by
  have hk := Json.length_le_escapeChars k.data
  have hv := Json.length_le_escapeChars v.data
  simp only [Json.encodeEntry, Json.escapeString, List.length_append, List.length_cons,
    List.length_nil]
  omega

theorem Json.encodeEntries_bounds (es : Table) :
    es.length ≤ (Json.encodeEntries es).length ∧
    ∀ e ∈ es, e.1.data.length < (Json.encodeEntries es).length ∧
      e.2.data.length < (Json.encodeEntries es).length := by
  induction es with
  | nil => simp [Json.encodeEntries]
  | cons e rest ih =>
    obtain ⟨k, v⟩ := e
    obtain ⟨hek, hev, hep⟩ := Json.encodeEntry_bounds k v
    cases rest with
    | nil =>
      refine ⟨by simpa [Json.encodeEntries] using hep, ?_⟩
      intro e2 he2
      simp only [List.mem_singleton] at he2
      subst he2
      exact ⟨by simpa [Json.encodeEntries] using hek,
        by simpa [Json.encodeEntries] using hev⟩
    | cons e3 rest3 =>
      obtain ⟨ih1, ih2⟩ := ih
      have hlen : (Json.encodeEntries ((k, v) :: e3 :: rest3)).length =
          (Json.encodeEntry (k, v)).length + 2 + (Json.encodeEntries (e3 :: rest3)).length := by
        simp only [Json.encodeEntries, List.length_append, List.length_cons]
        omega
      refine ⟨by simp only [List.length_cons] at ih1 ⊢; omega, ?_⟩
      intro e2 he2
      rcases List.mem_cons.1 he2 with rfl | he2
      · exact ⟨by dsimp only; omega, by dsimp only; omega⟩
      · obtain ⟨h1, h2⟩ := ih2 e2 he2
        exact ⟨by omega, by omega⟩

theorem Json.parseTableChars_encodeTable (es : Table) :
    Json.parseTableChars (Json.encodeTable es).data = some es := by
  cases es with
  | nil => rfl
  | cons e rest =>
    obtain ⟨k, v⟩ := e
    obtain ⟨hcount, hmem⟩ := Json.encodeEntries_bounds ((k, v) :: rest)
    have hdata : (Json.encodeTable ((k, v) :: rest)).data =
        '{' :: '\n' :: (Json.encodeEntries ((k, v) :: rest) ++ ['\n', '}']) := by
      simp [Json.encodeTable]
    set E := Json.encodeEntries ((k, v) :: rest) with hE
    have hlenE : ('{' :: '\n' :: (E ++ ['\n', '}'])).length = E.length + 4 := by
      simp
    -- the stream after the opening brace and whitespace starts with the
    -- first key's opening quote
    have hentry : ∃ Z, E ++ ['\n', '}'] = Json.encodeEntry (k, v) ++ Z := by
      cases rest with
      | nil => exact ⟨['\n', '}'], by simp [hE, Json.encodeEntries]⟩
      | cons e3 rest3 =>
        exact ⟨',' :: '\n' :: (Json.encodeEntries (e3 :: rest3) ++ ['\n', '}']), by
          simp [hE, Json.encodeEntries]⟩
    obtain ⟨Z, hZ⟩ := hentry
    have hsw : Json.skipWs (E ++ ['\n', '}']) =
        '"' :: (Json.escapeChars k.data ++ ('"' :: (':' :: ' ' :: (Json.escapeString v ++ Z)))) := by
      rw [hZ]
      simp only [Json.encodeEntry, List.cons_append, List.append_assoc]
      rw [Json.skipWs_ws ' ' _ (by decide), Json.skipWs_ws ' ' _ (by decide)]
      simp only [Json.escapeString, List.cons_append, List.append_assoc]
      rw [Json.skipWs_stop '"' _ (by decide)]
      simp
    unfold Json.parseTableChars
    rw [hdata]
    rw [Json.skipWs_stop '{' _ (by decide)]
    rw [show Json.expectChar '{' ('{' :: '\n' :: (E ++ ['\n', '}'])) =
        some ('\n' :: (E ++ ['\n', '}'])) from by simp +decide [Json.expectChar]]
    dsimp only
    rw [Json.skipWs_ws '\n' _ (by decide), hsw]
    dsimp only
    rw [if_neg (by decide)]
    rw [← hsw]
    have hL : ('{' :: '\n' :: (E ++ ['\n', '}'])).length = E.length + 4 := hlenE
    rw [hL]
    rw [show E.length + 4 + 1 = (E.length + 4) + 1 from rfl]
    rw [Json.parseEntriesAux_skipWs (E.length + 4 + 1) (E.length + 4) (E ++ ['\n', '}'])]
    rw [show E ++ ['\n', '}'] = E ++ '\n' :: '}' :: ([] : List Char) from by simp]
    rw [Json.parseEntriesAux_encodeEntries ((k, v) :: rest) [] (E.length + 4 + 1)
      (fun e he => by
        obtain ⟨h1, h2⟩ := hmem e he
        exact ⟨by omega, by omega⟩)
      (E.length + 4 + 1) (by simp) (by simp only [List.length_cons] at hcount ⊢; omega)]
    simp [Json.skipWs]

/-- C9: saving any thread-mapping table with
`_save_user_thread_mapping_locked` and reloading it with
`_load_user_thread_mapping` — simulating a process restart — yields a
table identical to the one saved. -/
theorem c9_persistence_round_trip (t : Table) (f : FileState) :
    load_user_thread_mapping (save_user_thread_mapping_locked true t f) = t := by
  simp only [save_user_thread_mapping_locked, if_true]
  simp [load_user_thread_mapping, Json.parseTable, Json.parseTableChars_encodeTable]

/-- C5: `_load_user_thread_mapping` is total — it never raises — and
returns the empty table when the backing file is absent, unreadable, or
not valid JSON; a file holding the persisted form of a table loads back
as exactly that table. -/
theorem c5_load_robust :
    load_user_thread_mapping FileState.absent = [] ∧
    load_user_thread_mapping FileState.unreadable = [] ∧
    (∀ s, Json.parseTable s = none →
      load_user_thread_mapping (FileState.stored s) = []) ∧
    (∀ t : Table, load_user_thread_mapping (FileState.stored (Json.encodeTable t)) = t) := by
  refine ⟨rfl, rfl, ?_, ?_⟩
  · intro s hs
    simp [load_user_thread_mapping, hs]
  · intro t
    simp [load_user_thread_mapping, Json.parseTable, Json.parseTableChars_encodeTable]

/-- Witness for C5: a corrupt file loads as the empty table, and a
persisted two-entry table loads back exactly. -/
theorem c5_witness_concrete :
    (Json.parseTable "not json" = none ∧
     load_user_thread_mapping (FileState.stored "not json") = []) ∧
    load_user_thread_mapping
      (FileState.stored (Json.encodeTable
        [("6ca13d52ca70c883", "thread_A"), ("k2", "v2")])) =
      [("6ca13d52ca70c883", "thread_A"), ("k2", "v2")] :=
  ⟨⟨by decide, c5_load_robust.2.2.1 "not json" (by decide)⟩,
   c5_load_robust.2.2.2 [("6ca13d52ca70c883", "thread_A"), ("k2", "v2")]⟩

end AgentMCP
